import Mathlib

/-!
Verification development for the mcp-commit-helper repository.

The embedding works over `List Char` (JavaScript strings are sequences of
UTF-16 code units; every string manipulated here stays within characters
where the two views agree).  External collaborators (the git binary, the
filesystem, environment variables) are modelled as explicit inputs: each
handler takes an environment record describing what every collaborator
call would return, and returns, besides the source function result, the
list of collaborator calls it actually performed.
-/

namespace CommitHelper

/-- Coerce a Lean string literal to the `List Char` representation. -/
def chars (s : String) : List Char := s.data

/-! ## JavaScript character classes (src/utils.ts regex, no unicode flag) -/

/-- JS regex `\w` (ASCII word character). -/
def isWordChar (c : Char) : Bool := c.isAlpha || c.isDigit || c == '_'

/-- JS regex `[\w.-]` (scope character of the header regex). -/
def isScopeChar (c : Char) : Bool := isWordChar c || c == '.' || c == '-'

/-- JS regex `\s`, also the character set removed by `String.prototype.trim`. -/
def isJsSpace (c : Char) : Bool :=
  c == ' ' || c == '\t' || c == '\n' || c == '\x0b' || c == '\x0c' || c == '\r' ||
  c == '\u00A0' || c == '\u1680' ||
  (decide ('\u2000' ≤ c) && decide (c ≤ '\u200A')) ||
  c == '\u2028' || c == '\u2029' || c == '\u202F' || c == '\u205F' ||
  c == '\u3000' || c == '\uFEFF'

/-- JS regex `.` without the `s` flag: any character except a line terminator. -/
def isDotChar (c : Char) : Bool :=
  !(c == '\n' || c == '\r' || c == '\u2028' || c == '\u2029')

/-! ## JS string helpers -/

/-- Remove the longest whitespace prefix (first half of `trim`). -/
def dropWs : List Char → List Char
  | [] => []
  | c :: rest => if isJsSpace c then dropWs rest else c :: rest

/-- Remove the longest whitespace suffix (second half of `trim`). -/
def rtrimWs : List Char → List Char
  | [] => []
  | c :: rest =>
    match rtrimWs rest with
    | [] => if isJsSpace c then [] else [c]
    | x :: xs => c :: x :: xs

/-- JavaScript `String.prototype.trim`. -/
def jsTrim (l : List Char) : List Char := rtrimWs (dropWs l)

/-- JavaScript `s.split("\n")`. -/
def splitNl : List Char → List (List Char)
  | [] => [[]]
  | c :: rest =>
    if c = '\n' then [] :: splitNl rest
    else
      match splitNl rest with
      | [] => [[c]]
      | l :: ls => (c :: l) :: ls

/-- JavaScript `lines.join("\n")`. -/
def joinNl : List (List Char) → List Char
  | [] => []
  | [l] => l
  | l :: ls => l ++ '\n' :: joinNl ls

/-- Embeds `message.split("\n")[0]`. -/
def firstLine (l : List Char) : List Char := (splitNl l).headD []

/-- JavaScript `l.startsWith(p)` (first argument is the pattern). -/
def startsWithL : List Char → List Char → Bool
  | [], _ => true
  | _ :: _, [] => false
  | p :: ps, c :: cs => p == c && startsWithL ps cs

/-- JavaScript `l.includes(p)` (first argument is the pattern). -/
def containsSub (p : List Char) : List Char → Bool
  | [] => p.isEmpty
  | c :: cs => startsWithL p (c :: cs) || containsSub p cs

/-- JavaScript `s.replace(pat, rep)` with a string pattern: first occurrence only.
(The `$`-escape handling of the JS replacement string is not modelled; no caller
in this repository relies on it.) -/
def replaceFirst (pat rep : List Char) : List Char → List Char
  | [] => if pat.isEmpty then rep else []
  | c :: cs =>
    if startsWithL pat (c :: cs) then rep ++ (c :: cs).drop pat.length
    else c :: replaceFirst pat rep cs

/-! ## Conventional-commit header validation (src/utils.ts lines 8-139) -/

/-- The capture groups of `CONVENTIONAL_COMMIT_HEADER_REGEX` on a successful match:
group 1 (type), group 2 (scope, optional), group 3 (the `!` marker), group 4
(description). -/
structure HeaderMatch where
  type : List Char
  scope : Option (List Char)
  breaking : Bool
  description : List Char
deriving DecidableEq, Repr

/-- Matching of the suffix `(!)?:\s(.+)$` of the header regex.

The regex engine semantics collapse to this deterministic function: `(!)?` can
only succeed when followed by `:`, `\s` is a single-character class, and `(.+)$`
succeeds exactly when the remainder is a non-empty run of non-line-terminator
characters. -/
def matchAfterScope (ty : List Char) (sc : Option (List Char)) (rest : List Char) :
    Option HeaderMatch :=
  match rest with
  | c1 :: r1 =>
    if c1 = '!' then
      match r1 with
      | c2 :: c3 :: d =>
        if c2 = ':' && isJsSpace c3 && !d.isEmpty && d.all isDotChar then
          some ⟨ty, sc, true, d⟩
        else none
      | _ => none
    else if c1 = ':' then
      match r1 with
      | c3 :: d =>
        if isJsSpace c3 && !d.isEmpty && d.all isDotChar then
          some ⟨ty, sc, false, d⟩
        else none
      | _ => none
    else none
  | [] => none

/-- Anchored matching of `^(\w+)(?:\(([\w.-]+)\))?(!)?:\s(.+)$`
(`CONVENTIONAL_COMMIT_HEADER_REGEX`, src/utils.ts lines 34-36).

Backtracking never changes the outcome for this regex: a shorter `(\w+)` leaves
a word character where `(`, `!` or `:` is required, and skipping the scope
group leaves `(` where `!` or `:` is required, so the greedy, deterministic
parse below is exactly the JS matching behaviour. -/
def matchHeaderRegex (s : List Char) : Option HeaderMatch :=
  if (s.takeWhile isWordChar).isEmpty then none
  else
    match s.dropWhile isWordChar with
    | c :: r =>
      if c = '(' then
        if (r.takeWhile isScopeChar).isEmpty then none
        else
          match r.dropWhile isScopeChar with
          | c2 :: r3 =>
            if c2 = ')' then
              matchAfterScope (s.takeWhile isWordChar) (some (r.takeWhile isScopeChar)) r3
            else none
          | [] => none
      else matchAfterScope (s.takeWhile isWordChar) none (c :: r)
    | [] => matchAfterScope (s.takeWhile isWordChar) none []

/-- The regex match the validator computes at src/utils.ts line 105:
the trimmed first line of the message, matched against the header regex. -/
def headerCaptures (message : List Char) : Option HeaderMatch :=
  matchHeaderRegex (jsTrim (firstLine message))

/-- The literal text a captured scope occupies in the header: `(scope)`, or
nothing when the scope group did not participate. -/
def scopeText : Option (List Char) → List Char
  | none => []
  | some sc => '(' :: (sc ++ [')'])

/-- Embeds `CONVENTIONAL_COMMIT_TYPES` (src/utils.ts lines 8-19). -/
def CONVENTIONAL_COMMIT_TYPES : List (List Char) :=
  [chars "feat", chars "fix", chars "build", chars "chore", chars "ci",
   chars "docs", chars "style", chars "refactor", chars "perf", chars "test"]

/-- JavaScript `list.join(", ")`. -/
def joinCS : List (List Char) → List Char
  | [] => []
  | [x] => x
  | x :: xs => x ++ chars ", " ++ joinCS xs

/-- Return value of `validateConventionalCommitHeader`. -/
structure ValidationResult where
  isValid : Bool
  error : Option (List Char)
deriving DecidableEq, Repr

def emptyHeaderErrorText : List Char :=
  chars "Commit message header cannot be empty."

def formatErrorText : List Char :=
  chars "Invalid header format. Expected \x27<type>(<scope>): <description>\x27 or \x27<type>!: <description>\x27 or \x27<type>(<scope>)!: <description>\x27."

def typeErrorText (t : List Char) : List Char :=
  chars "Invalid type \x27" ++ t ++ chars "\x27. Must be one of: " ++
    joinCS CONVENTIONAL_COMMIT_TYPES ++ chars "."

/-- Embeds `validateConventionalCommitHeader` (src/utils.ts lines 94-139).
The trailing-period branch of the source is a no-op (its body is commented
out), so it does not appear here. -/
def validateConventionalCommitHeader (message : List Char) : ValidationResult :=
  let header := jsTrim (firstLine message)
  if header.isEmpty then ⟨false, some emptyHeaderErrorText⟩
  else
    match matchHeaderRegex header with
    | none => ⟨false, some formatErrorText⟩
    | some m =>
      if !(CONVENTIONAL_COMMIT_TYPES.contains m.type) then
        ⟨false, some (typeErrorText m.type)⟩
      else if m.description.isEmpty then
        ⟨false, some (chars "Description cannot be empty.")⟩
      else ⟨true, none⟩

/-! ## Diff aggregation (`getGitDiff`, src/utils.ts lines 156-210) -/

/-- Outcome of one `execPromise` collaborator call: its stdout on success, or
the thrown value (an `Error` carrying a message, or any other value). -/
inductive ExecOutcome
  | ok (stdout : List Char)
  | err (message : List Char)
  | errNonError
deriving DecidableEq, Repr

/-- What each of the three read-only git calls would return. -/
structure DiffEnv where
  staged : ExecOutcome
  unstaged : ExecOutcome
  untracked : ExecOutcome
deriving DecidableEq, Repr

/-- A collaborator invocation (filesystem or git). -/
inductive GitCall
  | statPath (path : List Char)
  | revParse (path : List Char)
  | diffStaged (path : List Char)
  | diffUnstaged (path : List Char)
  | lsOthers (path : List Char)
  | addAllCmd (path : List Char)
  | commitCmd (path : List Char) (command : List Char)
deriving DecidableEq, Repr

/-- Embeds `untrackedFilesOutput.split("\n").filter((line) => line.trim() !== "")`. -/
def nonBlankLines (out : List Char) : List (List Char) :=
  (splitNl out).filter (fun l => !(jsTrim l).isEmpty)

def stagedBlock (s : List Char) : List Char :=
  if (jsTrim s).isEmpty then []
  else chars "=== STAGED CHANGES ===\n" ++ jsTrim s ++ chars "\n\n"

def unstagedBlock (u : List Char) : List Char :=
  if (jsTrim u).isEmpty then []
  else chars "=== UNSTAGED CHANGES ===\n" ++ jsTrim u ++ chars "\n\n"

def untrackedBlock (t : List Char) : List Char :=
  if (nonBlankLines t).isEmpty then []
  else chars "=== UNTRACKED FILES ===\n" ++ joinNl (nonBlankLines t) ++ chars "\n"

/-- The `hasChanges` flag of `getGitDiff`. -/
def hasChangesB (s u t : List Char) : Bool :=
  !(jsTrim s).isEmpty || !(jsTrim u).isEmpty || !(nonBlankLines t).isEmpty

/-- The success path of `getGitDiff`: all three collaborator calls returned. -/
def getGitDiffOk (s u t : List Char) : List Char :=
  if hasChangesB s u t then jsTrim (stagedBlock s ++ unstagedBlock u ++ untrackedBlock t)
  else chars "No changes detected"

/-- The `catch` branch of `getGitDiff` for a thrown `Error`. -/
def diffFailText (m : List Char) : List Char :=
  chars "Error retrieving git diff: " ++ m

/-- Embeds `getGitDiff` (src/utils.ts lines 156-210).  The first component is the
returned string; the second records which collaborator calls were issued (the
three awaits run in order inside one `try`, so a throw prevents every later
call). -/
def getGitDiffRun (path : List Char) (env : DiffEnv) : List Char × List GitCall :=
  match env.staged with
  | .err m => (diffFailText m, [.diffStaged path])
  | .errNonError => (chars "Error retrieving git diff: Unknown error", [.diffStaged path])
  | .ok s =>
    match env.unstaged with
    | .err m => (diffFailText m, [.diffStaged path, .diffUnstaged path])
    | .errNonError =>
      (chars "Error retrieving git diff: Unknown error", [.diffStaged path, .diffUnstaged path])
    | .ok u =>
      match env.untracked with
      | .err m => (diffFailText m, [.diffStaged path, .diffUnstaged path, .lsOthers path])
      | .errNonError =>
        (chars "Error retrieving git diff: Unknown error",
         [.diffStaged path, .diffUnstaged path, .lsOthers path])
      | .ok t => (getGitDiffOk s u t, [.diffStaged path, .diffUnstaged path, .lsOthers path])

/-! ## Server state and tool handlers -/

/-- Embeds `ServerState` (src/index.ts lines 65-73) / `StateService` fields. -/
structure ServerState where
  projectPath : Option (List Char)
  isValidGitRepo : Bool
deriving DecidableEq, Repr

/-- The state at process start. -/
def initialState : ServerState := ⟨none, false⟩

/-- JS truthiness of `state.projectPath` (`null` and `""` are falsy). -/
def pathTruthy : Option (List Char) → Bool
  | none => false
  | some p => !p.isEmpty

/-- A handler reply: every handler of this repository returns exactly one text
content block, plus the optional `isError` flag. -/
structure ToolResult where
  text : List Char
  isError : Bool
deriving DecidableEq, Repr

def notInitializedText : List Char :=
  chars "Error: Project not initialized or not a valid Git repository. Please use initialize-project tool first."

def notInitializedResult : ToolResult := ⟨notInitializedText, true⟩

/-- The `get-git-diff` handler (src/index.ts lines 158-205 and
src/tools/get-git-diff.ts). -/
def getGitDiffTool (st : ServerState) (env : DiffEnv) : ToolResult × List GitCall :=
  if !pathTruthy st.projectPath || !st.isValidGitRepo then (notInitializedResult, [])
  else
    let p := st.projectPath.getD []
    let r := getGitDiffRun p env
    if startsWithL (chars "Error retrieving git diff:") r.1 then (⟨r.1, true⟩, r.2)
    else (⟨r.1, false⟩, r.2)

/-- The scope instruction of `generate-commit-prompt` (`scope` is falsy when
absent or empty). -/
def scopeInstructionFor (scope : Option (List Char)) : List Char :=
  match scope with
  | some sc =>
    if sc.isEmpty then
      chars "Determine an appropriate scope based on the changes if applicable, otherwise omit the scope."
    else chars "Use the provided scope \"" ++ sc ++ chars "\"."
  | none =>
    chars "Determine an appropriate scope based on the changes if applicable, otherwise omit the scope."

/-- The `generate-commit-prompt` handler (src/index.ts lines 210-289 and the
tool-module variant).  `template` is the result of `getCommitPrompt()` (an
environment override or the default template), supplied as an input. -/
def generateCommitPromptTool (st : ServerState) (scope : Option (List Char))
    (template : List Char) (env : DiffEnv) : ToolResult × List GitCall :=
  if !pathTruthy st.projectPath || !st.isValidGitRepo then (notInitializedResult, [])
  else
    let p := st.projectPath.getD []
    let r := getGitDiffRun p env
    if r.1 = chars "No changes detected" then
      (⟨chars "No changes detected to generate a commit message prompt for.", false⟩, r.2)
    else if startsWithL (chars "Error retrieving git diff:") r.1 then (⟨r.1, true⟩, r.2)
    else
      (⟨replaceFirst (chars "{scope_instruction}") (scopeInstructionFor scope)
          (replaceFirst (chars "{diff}") r.1 template), false⟩, r.2)

/-! ## create-commit (src/index.ts lines 292-409) -/

/-- Embeds `escapeQuotes`: `str.replace(/"/g, Backslash-quote)`. -/
def escapeQuotes : List Char → List Char
  | [] => []
  | c :: cs => if c = '\"' then '\\' :: '\"' :: escapeQuotes cs else c :: escapeQuotes cs

/-- Embeds `message.trim().split("\n")[0]`. -/
def commitSubject (message : List Char) : List Char :=
  (splitNl (jsTrim message)).headD []

/-- Embeds `messageLines.slice(1).join("\n")`. -/
def commitBody (message : List Char) : List Char :=
  joinNl (splitNl (jsTrim message)).tail

/-- The single shell string handed to `execPromise` for the commit
(src/index.ts lines 352-358). -/
def buildCommitCommand (message : List Char) : List Char :=
  chars "git commit -m \"" ++ escapeQuotes (commitSubject message) ++ chars "\"" ++
    (if (commitBody message).isEmpty then []
     else chars " -m \"" ++ escapeQuotes (commitBody message) ++ chars "\"")

/-- A thrown `execPromise` error: its `message` and its `stderr` (an absent
`stderr` and an empty one are both falsy, so both are modelled as `[]`). -/
structure ExecError where
  message : List Char
  stderr : List Char
deriving DecidableEq, Repr

/-- Outcome of the `git commit` collaborator call. -/
inductive CommitExecOutcome
  | ok (stdout stderr : List Char)
  | err (e : ExecError)
deriving DecidableEq, Repr

/-- What the two write collaborator calls of `create-commit` would do:
`addError = none` means `git add -A` succeeds. -/
structure CommitEnv where
  addError : Option ExecError
  commitOutcome : CommitExecOutcome
deriving DecidableEq, Repr

/-- The error classification of the `catch` block (src/index.ts lines 376-396). -/
def commitErrorText (addAll : Bool) (e : ExecError) : List Char :=
  if e.stderr.isEmpty then chars "Error creating commit: " ++ e.message
  else if containsSub (chars "nothing to commit") e.stderr then
    chars "Error: No changes were staged for commit. Use \x27addAll: true\x27 or stage files manually before committing."
  else if containsSub (chars "Please tell me who you are") e.stderr then
    chars "Error: Git user identity (name and email) is not configured. Please configure it using \x27git config \x2d\x2dglobal user.name \"Your Name\"\x27 and \x27git config \x2d\x2dglobal user.email \"your.email@example.com\"\x27."
  else if containsSub (chars "changes not staged for commit") e.stderr && !addAll then
    chars "Error: There are unstaged changes. Use \x27addAll: true\x27 to include them or stage them manually before committing."
  else
    chars "Error creating commit: " ++ e.message ++ chars "\nDetails: " ++ jsTrim e.stderr

/-- The validation-failure reply of `create-commit` (src/index.ts lines 316-329). -/
def validationFailText (message err : List Char) : List Char :=
  chars "Error: Commit message validation failed. " ++ err ++
    chars " Provided message:\n---\n" ++ message ++
    chars "\n---\nTo commit anyway, use \x27validate: false\x27."

/-- The success reply of `create-commit`. -/
def commitSuccessText (stdout stderr : List Char) : List Char :=
  chars "Successfully created commit:\n" ++ jsTrim stdout ++ chars "\n" ++
    (if stderr.isEmpty then [] else chars "\nGit Messages:\n" ++ jsTrim stderr)

/-- The `create-commit` handler (src/index.ts lines 292-409). -/
def createCommitTool (st : ServerState) (message : List Char) (addAll validate : Bool)
    (env : CommitEnv) : ToolResult × List GitCall :=
  if !pathTruthy st.projectPath || !st.isValidGitRepo then (notInitializedResult, [])
  else if validate && !(validateConventionalCommitHeader message).isValid then
    (⟨validationFailText message ((validateConventionalCommitHeader message).error.getD []),
      true⟩, [])
  else
    let p := st.projectPath.getD []
    let cmd := buildCommitCommand message
    if addAll then
      match env.addError with
      | some e => (⟨commitErrorText addAll e, true⟩, [.addAllCmd p])
      | none =>
        match env.commitOutcome with
        | .ok out serr => (⟨commitSuccessText out serr, false⟩, [.addAllCmd p, .commitCmd p cmd])
        | .err e => (⟨commitErrorText addAll e, true⟩, [.addAllCmd p, .commitCmd p cmd])
    else
      match env.commitOutcome with
      | .ok out serr => (⟨commitSuccessText out serr, false⟩, [.commitCmd p cmd])
      | .err e => (⟨commitErrorText addAll e, true⟩, [.commitCmd p cmd])

/-! ## initialize-project (src/index.ts lines 84-155, src/tools/initialize-project.ts) -/

/-- Outcome of `fs.stat` on the resolved path, with `stats.isDirectory()`
folded in.  `okNotDir` is the case where `stat` succeeds but the path is not a
directory: the handler throws an `Error` (which carries no `code`), so the
catch falls through to the generic "Error accessing path" message. -/
inductive StatOutcome
  | okDir
  | okNotDir
  | enoent
  | enotdir
  | otherErr (message : List Char)
deriving DecidableEq, Repr

/-- Collaborator answers for one `initialize-project` invocation.
`resolvedPath` is the result of `path.resolve` (pure path algebra, total). -/
structure InitEnv where
  resolvedPath : List Char
  statOutcome : StatOutcome
  isGitRepo : Bool
deriving DecidableEq, Repr

/-- The `initialize-project` handler.  Returns the reply and the state after
the invocation. -/
def initializeProjectTool (env : InitEnv) (st : ServerState) : ToolResult × ServerState :=
  let p := env.resolvedPath
  match env.statOutcome with
  | .enoent =>
    (⟨chars "Error: The path \"" ++ p ++ chars "\" does not exist.", true⟩, st)
  | .enotdir =>
    (⟨chars "Error: The path \"" ++ p ++ chars "\" is not a directory.", true⟩, st)
  | .otherErr m =>
    (⟨chars "Error: Error accessing path \"" ++ p ++ chars "\": " ++ m, true⟩, st)
  | .okNotDir =>
    (⟨chars "Error: Error accessing path \"" ++ p ++ chars "\": The path \"" ++ p ++
        chars "\" is not a directory.", true⟩, st)
  | .okDir =>
    if env.isGitRepo then
      (⟨chars "Successfully initialized git project at: " ++ p, false⟩, ⟨some p, true⟩)
    else
      (⟨chars "Error: The path \"" ++ p ++
          chars "\" is not a git repository. Initialize with \x27git init\x27 if needed.", true⟩,
       st)

/-! ## Shell word splitting (spec-side apparatus for the atomicity claim)

Modelled from the spec: the spec states that the commit collaborator receives
subject and body "as independent atomic arguments".  The source instead hands
the shell a single command string; `shellSplitCmd` decodes such a string the
way a POSIX shell splits words (double quotes and backslash escapes; the
command strings built here contain no single quotes, tabs or expansions), so
that atomicity can be stated as: decoding the single string yields exactly the
intended argument vector. -/

inductive ShMode
  | out
  | outEsc
  | inQ
  | inQEsc
deriving DecidableEq, Repr

/-- Word splitting of a double-quoted shell command line.  `cur` is the word
being built (reversed), `none` when no word has started.  Returns `none` for
an unterminated quote or a dangling backslash. -/
def shellFieldsAux : ShMode → Option (List Char) → List Char → Option (List (List Char))
  | .out, cur, [] =>
    some (match cur with | none => [] | some w => [w.reverse])
  | .out, cur, c :: rest =>
    if c = ' ' then
      match cur with
      | none => shellFieldsAux .out none rest
      | some w => (shellFieldsAux .out none rest).map (fun fs => w.reverse :: fs)
    else if c = '\"' then shellFieldsAux .inQ (some (cur.getD [])) rest
    else if c = '\\' then shellFieldsAux .outEsc cur rest
    else shellFieldsAux .out (some (c :: cur.getD [])) rest
  | .outEsc, _, [] => none
  | .outEsc, cur, c :: rest => shellFieldsAux .out (some (c :: cur.getD [])) rest
  | .inQ, _, [] => none
  | .inQ, cur, c :: rest =>
    if c = '\"' then shellFieldsAux .out cur rest
    else if c = '\\' then shellFieldsAux .inQEsc cur rest
    else shellFieldsAux .inQ (some (c :: cur.getD [])) rest
  | .inQEsc, _, [] => none
  | .inQEsc, cur, c :: rest =>
    if c = '\"' || c = '\\' || c = '$' || c = '\x60' then
      shellFieldsAux .inQ (some (c :: cur.getD [])) rest
    else shellFieldsAux .inQ (some (c :: '\\' :: cur.getD [])) rest

def shellSplitCmd (l : List Char) : Option (List (List Char)) :=
  shellFieldsAux .out none l

/-- Modelled from the spec: the argument vector the commit collaborator would
receive if subject and body were passed as independent atomic arguments
("issue the collaborator commit operation with subject and body passed as
independent atomic arguments"). -/
def commitArgvSpec (message : List Char) : List (List Char) :=
  [chars "git", chars "commit", chars "-m", commitSubject message] ++
    (if (commitBody message).isEmpty then [] else [chars "-m", commitBody message])

/-! ## Basic lemmas about the string helpers -/

theorem splitNl_ne_nil (l : List Char) : splitNl l ≠ [] := by
  cases l with
  | nil => simp [splitNl]
  | cons c rest =>
    simp only [splitNl]
    split
    · exact List.cons_ne_nil _ _
    · split
      · exact List.cons_ne_nil _ _
      · exact List.cons_ne_nil _ _

theorem joinNl_cons_cons (a b : List Char) (ls : List (List Char)) :
    joinNl (a :: b :: ls) = a ++ '\n' :: joinNl (b :: ls) := rfl

theorem joinNl_splitNl (l : List Char) : joinNl (splitNl l) = l := by
  induction l with
  | nil => rfl
  | cons c rest ih =>
    cases h : splitNl rest with
    | nil => exact absurd h (splitNl_ne_nil rest)
    | cons a as =>
      rw [h] at ih
      by_cases hc : c = '\n'
      · subst hc
        have hs : splitNl ('\n' :: rest) = [] :: a :: as := by simp [splitNl, h]
        rw [hs, joinNl_cons_cons, ih]
        rfl
      · have hs : splitNl (c :: rest) = (c :: a) :: as := by simp [splitNl, hc, h]
        rw [hs]
        cases as with
        | nil => simpa [joinNl] using ih
        | cons b bs =>
          rw [joinNl_cons_cons] at ih ⊢
          simp [← ih]

theorem startsWithL_append (p l : List Char) : startsWithL p (p ++ l) = true := by
  induction p with
  | nil => rfl
  | cons c cs ih => simp [startsWithL, ih]

theorem startsWithL_exists_append {p l : List Char} (h : startsWithL p l = true) :
    ∃ r, l = p ++ r := by
  induction p generalizing l with
  | nil => exact ⟨l, rfl⟩
  | cons c cs ih =>
    cases l with
    | nil => simp [startsWithL] at h
    | cons a as =>
      simp only [startsWithL, Bool.and_eq_true, beq_iff_eq] at h
      obtain ⟨rfl, h2⟩ := h
      obtain ⟨r, rfl⟩ := ih h2
      exact ⟨r, rfl⟩

theorem ne_of_head_ne {a b : Char} {x y : List Char} (h : a ≠ b) : a :: x ≠ b :: y := by
  simp [h]

theorem startsWithL_false_of_head_ne {p c : Char} {ps l : List Char} (h : (p == c) = false) :
    startsWithL (p :: ps) (c :: l) = false := by
  simp [startsWithL, h]

theorem rtrimWs_cons_ne (c : Char) (l : List Char) (hc : isJsSpace c = false) :
    rtrimWs (c :: l) ≠ [] := by
  simp only [rtrimWs]
  cases h : rtrimWs l with
  | nil => simp [hc]
  | cons x xs => simp

theorem rtrimWs_cons_of_tail (c : Char) (l : List Char) (h : rtrimWs l ≠ []) :
    rtrimWs (c :: l) = c :: rtrimWs l := by
  simp only [rtrimWs]
  cases hh : rtrimWs l with
  | nil => exact absurd hh h
  | cons x xs => simp

theorem dropWs_cons_of_neg (c : Char) (l : List Char) (hc : isJsSpace c = false) :
    dropWs (c :: l) = c :: l := by
  simp [dropWs, hc]

theorem jsTrim_eq_marker (c : Char) (rest : List Char) (hc : isJsSpace c = false) :
    jsTrim ('=' :: '=' :: '=' :: ' ' :: c :: rest) =
      '=' :: '=' :: '=' :: ' ' :: rtrimWs (c :: rest) := by
  have h0 : isJsSpace '=' = false := by decide
  rw [jsTrim, dropWs_cons_of_neg _ _ h0]
  have h1 : rtrimWs (c :: rest) ≠ [] := rtrimWs_cons_ne c rest hc
  have h2 : rtrimWs (' ' :: c :: rest) = ' ' :: rtrimWs (c :: rest) :=
    rtrimWs_cons_of_tail _ _ h1
  have h2' : rtrimWs (' ' :: c :: rest) ≠ [] := by rw [h2]; simp
  have h3 : rtrimWs ('=' :: ' ' :: c :: rest) = '=' :: rtrimWs (' ' :: c :: rest) :=
    rtrimWs_cons_of_tail _ _ h2'
  have h3' : rtrimWs ('=' :: ' ' :: c :: rest) ≠ [] := by rw [h3]; simp
  have h4 : rtrimWs ('=' :: '=' :: ' ' :: c :: rest) = '=' :: rtrimWs ('=' :: ' ' :: c :: rest) :=
    rtrimWs_cons_of_tail _ _ h3'
  have h4' : rtrimWs ('=' :: '=' :: ' ' :: c :: rest) ≠ [] := by rw [h4]; simp
  rw [rtrimWs_cons_of_tail _ _ h4', h4, h3, h2]

theorem startsWith_marker_of (c : Char) (rest : List Char) (hc : isJsSpace c = false) :
    startsWithL (chars "=== ") (jsTrim ('=' :: '=' :: '=' :: ' ' :: c :: rest)) = true := by
  rw [jsTrim_eq_marker c rest hc]
  show startsWithL ('=' :: '=' :: '=' :: ' ' :: []) _ = true
  simp [startsWithL]

/-! ## Inversion of the header-regex match -/

theorem matchAfterScope_some {ty : List Char} {sc : Option (List Char)} {rest : List Char}
    {m : HeaderMatch} (h : matchAfterScope ty sc rest = some m) :
    m.type = ty ∧ m.scope = sc ∧ m.description ≠ [] ∧
    ∃ sep, isJsSpace sep = true ∧
      rest = (if m.breaking then ['!'] else []) ++ ':' :: sep :: m.description := by
  cases rest with
  | nil => simp [matchAfterScope] at h
  | cons c1 r1 =>
    by_cases h1 : c1 = '!'
    · subst h1
      cases r1 with
      | nil => simp [matchAfterScope] at h
      | cons c2 r2 =>
        cases r2 with
        | nil => simp [matchAfterScope] at h
        | cons c3 d =>
          simp [matchAfterScope] at h
          obtain ⟨⟨⟨⟨hc2, hc3⟩, hd⟩, hall⟩, hm⟩ := h
          subst hc2
          refine ⟨by rw [← hm], by rw [← hm], by rw [← hm]; exact hd, c3, hc3, ?_⟩
          rw [← hm]
          simp
    · cases r1 with
      | nil => simp [matchAfterScope, h1] at h
      | cons c3 d =>
        simp [matchAfterScope, h1] at h
        obtain ⟨hc1, ⟨⟨hc3, hd⟩, hall⟩, hm⟩ := h
        subst hc1
        refine ⟨by rw [← hm], by rw [← hm], by rw [← hm]; exact hd, c3, hc3, ?_⟩
        rw [← hm]
        simp

theorem matchHeaderRegex_some {s : List Char} {m : HeaderMatch}
    (h : matchHeaderRegex s = some m) :
    m.description ≠ [] ∧
    ∃ sep, isJsSpace sep = true ∧
      s = m.type ++ scopeText m.scope ++ (if m.breaking then ['!'] else []) ++
          ':' :: sep :: m.description := by
  have hsplit : s = s.takeWhile isWordChar ++ s.dropWhile isWordChar :=
    (List.takeWhile_append_dropWhile _ _).symm
  unfold matchHeaderRegex at h
  split at h
  · simp at h
  · split at h
    · rename_i c r hdw
      rw [hdw] at hsplit
      split at h
      · rename_i hc
        subst hc
        split at h
        · simp at h
        · split at h
          · rename_i c2 r3 hdw2
            split at h
            · rename_i hc2
              subst hc2
              obtain ⟨hty, hsc, hd, sep, hsep, hrest⟩ := matchAfterScope_some h
              refine ⟨hd, sep, hsep, ?_⟩
              have hr : r = r.takeWhile isScopeChar ++ ')' :: r3 := by
                conv_lhs => rw [← List.takeWhile_append_dropWhile isScopeChar r]
                rw [hdw2]
              rw [hsplit, hr, hty, hsc, hrest]
              simp [scopeText]
            · simp at h
          · simp at h
      · rename_i hc
        obtain ⟨hty, hsc, hd, sep, hsep, hrest⟩ := matchAfterScope_some h
        refine ⟨hd, sep, hsep, ?_⟩
        rw [hsplit, hty, hsc, hrest]
        simp [scopeText]
    · simp [matchAfterScope] at h

/-! ## Lemmas about the rendered diff aggregate -/

theorem startsWith_marker_hdr (hdr x : List Char) (c : Char) (rest0 : List Char)
    (hhdr : hdr = '=' :: '=' :: '=' :: ' ' :: c :: rest0) (hc : isJsSpace c = false) :
    startsWithL (chars "=== ") (jsTrim (hdr ++ x)) = true := by
  subst hhdr
  simpa [List.cons_append] using startsWith_marker_of c (rest0 ++ x) hc

theorem getGitDiffOk_marker (s u t : List Char) (h : hasChangesB s u t = true) :
    startsWithL (chars "=== ") (getGitDiffOk s u t) = true := by
  rw [getGitDiffOk, if_pos h]
  by_cases hs : (jsTrim s).isEmpty
  · by_cases hu : (jsTrim u).isEmpty
    · have ht : ¬(nonBlankLines t).isEmpty = true := by
        simp [hasChangesB, hs, hu] at h
        simp [h]
      rw [stagedBlock, if_pos hs, unstagedBlock, if_pos hu, untrackedBlock, if_neg ht]
      simp only [List.nil_append, List.append_assoc]
      exact startsWith_marker_hdr _ _ 'U' (chars "NTRACKED FILES ===\n") rfl (by decide)
    · rw [stagedBlock, if_pos hs, unstagedBlock, if_neg hu]
      simp only [List.nil_append, List.append_assoc]
      exact startsWith_marker_hdr _ _ 'U' (chars "NSTAGED CHANGES ===\n") rfl (by decide)
  · rw [stagedBlock, if_neg hs]
    simp only [List.nil_append, List.append_assoc]
    exact startsWith_marker_hdr _ _ 'S' (chars "TAGED CHANGES ===\n") rfl (by decide)

theorem marker_ne_noChanges {l : List Char} (h : startsWithL (chars "=== ") l = true) :
    l ≠ chars "No changes detected" := by
  intro hEq
  rw [hEq] at h
  exact absurd h (by decide)

theorem marker_not_err {l : List Char} (h : startsWithL (chars "=== ") l = true) :
    startsWithL (chars "Error retrieving git diff:") l = false := by
  obtain ⟨r, rfl⟩ := startsWithL_exists_append h
  have e1 : chars "Error retrieving git diff:" = 'E' :: chars "rror retrieving git diff:" := rfl
  have e2 : chars "=== " ++ r = '=' :: (chars "== " ++ r) := rfl
  rw [e1, e2]
  exact startsWithL_false_of_head_ne (by decide)

theorem errText_ne_noChanges (m : List Char) :
    diffFailText m ≠ chars "No changes detected" := by
  have e1 : diffFailText m = 'E' :: (chars "rror retrieving git diff: " ++ m) := rfl
  have e2 : chars "No changes detected" = 'N' :: chars "o changes detected" := rfl
  rw [e1, e2]
  exact ne_of_head_ne (by decide)

theorem errText_startsWith (m : List Char) :
    startsWithL (chars "Error retrieving git diff:") (diffFailText m) = true := by
  have e : diffFailText m = chars "Error retrieving git diff:" ++ (' ' :: m) := rfl
  rw [e]
  exact startsWithL_append _ _

/-! ## Claim theorems -/

/-- C1: every gated operation (get-git-diff, generate-commit-prompt,
create-commit) invoked while the project-context slot is empty or not
validated returns the NotInitialized error envelope, whose text directs the
caller to initialize-project, and performs no filesystem or VCS collaborator
call. -/
theorem claim_C1 : ∀ st : ServerState,
    pathTruthy st.projectPath = false ∨ st.isValidGitRepo = false →
    containsSub (chars "initialize-project") notInitializedText = true ∧
    notInitializedResult.isError = true ∧
    (∀ env, getGitDiffTool st env = (notInitializedResult, [])) ∧
    (∀ scope template env,
      generateCommitPromptTool st scope template env = (notInitializedResult, [])) ∧
    (∀ message addAll validate env,
      createCommitTool st message addAll validate env = (notInitializedResult, [])) := by
  intro st h
  have hg : (!pathTruthy st.projectPath || !st.isValidGitRepo) = true := by
    rcases h with h | h <;> simp [h]
  refine ⟨by decide, rfl, ?_, ?_, ?_⟩
  · intro env
    simp [getGitDiffTool, hg]
  · intro scope template env
    simp [generateCommitPromptTool, hg]
  · intro message addAll validate env
    simp [createCommitTool, hg]

theorem claim_C1_witness :
    getGitDiffTool initialState ⟨.ok [], .ok [], .ok []⟩ = (notInitializedResult, []) :=
  (claim_C1 initialState (Or.inl rfl)).2.2.1 ⟨.ok [], .ok [], .ok []⟩

/-- C2: on `feat(auth)!: implement MFA` the validator accepts and the header
match captures type `feat`, scope `auth`, breaking `true`; in general, for
every accepted message the captured type, scope and breaking marker are the
literal substrings of the trimmed header line, which is exactly
type ++ (scope) ++ ! ++ colon ++ separator ++ description. -/
theorem claim_C2 :
    (validateConventionalCommitHeader (chars "feat(auth)!: implement MFA") = ⟨true, none⟩ ∧
     headerCaptures (chars "feat(auth)!: implement MFA") =
       some ⟨chars "feat", some (chars "auth"), true, chars "implement MFA"⟩) ∧
    (∀ message m, (validateConventionalCommitHeader message).isValid = true →
      headerCaptures message = some m →
      ∃ sep, isJsSpace sep = true ∧
        jsTrim (firstLine message) =
          m.type ++ scopeText m.scope ++ (if m.breaking then ['!'] else []) ++
            ':' :: sep :: m.description) ∧
    (∀ message, (validateConventionalCommitHeader message).isValid = true →
      (headerCaptures message).isSome = true) := by
  refine ⟨⟨by decide, by decide⟩, ?_, ?_⟩
  · intro message m _ hm
    obtain ⟨_, sep, hsep, hs⟩ := matchHeaderRegex_some hm
    exact ⟨sep, hsep, by rw [hs]⟩
  · intro message hv
    rw [headerCaptures]
    cases hm : matchHeaderRegex (jsTrim (firstLine message)) with
    | some m => rfl
    | none =>
      exfalso
      simp only [validateConventionalCommitHeader, hm] at hv
      split at hv <;> simp at hv

theorem claim_C2_witness :
    ∃ sep, isJsSpace sep = true ∧
      jsTrim (firstLine (chars "feat(auth)!: implement MFA")) =
        chars "feat" ++ scopeText (some (chars "auth")) ++ ['!'] ++
          ':' :: sep :: chars "implement MFA" := by
  have h := claim_C2.2.1 (chars "feat(auth)!: implement MFA")
    ⟨chars "feat", some (chars "auth"), true, chars "implement MFA"⟩ (by decide) (by decide)
  simpa using h

/-- C3: the validator accepts exactly the messages whose trimmed first line
matches the header regex with a type in the fixed allowed list; a rejection
always carries an error message and an acceptance never does. -/
theorem claim_C3 : ∀ message : List Char,
    ((validateConventionalCommitHeader message).isValid = true ↔
      ∃ m, headerCaptures message = some m ∧
        CONVENTIONAL_COMMIT_TYPES.contains m.type = true) ∧
    (validateConventionalCommitHeader message).error.isSome =
      !(validateConventionalCommitHeader message).isValid := by
  intro message
  by_cases h0 : (jsTrim (firstLine message)).isEmpty
  · have hnil : jsTrim (firstLine message) = [] := by simpa using h0
    have hm : matchHeaderRegex (jsTrim (firstLine message)) = none := by
      rw [hnil]; rfl
    simp [validateConventionalCommitHeader, headerCaptures, h0, hm]
  · cases hm : matchHeaderRegex (jsTrim (firstLine message)) with
    | none => simp [validateConventionalCommitHeader, headerCaptures, h0, hm]
    | some m =>
      have hd : m.description ≠ [] := (matchHeaderRegex_some hm).1
      by_cases hty : CONVENTIONAL_COMMIT_TYPES.contains m.type = true
      · have htym : m.type ∈ CONVENTIONAL_COMMIT_TYPES := by simpa using hty
        simp [validateConventionalCommitHeader, headerCaptures, h0, hm, htym, hd]
      · have htym : m.type ∉ CONVENTIONAL_COMMIT_TYPES := by simpa using hty
        simp [validateConventionalCommitHeader, headerCaptures, h0, hm, htym]

/-- C4 counterexample: a tab (not a space) after the colon is accepted by the
validator, refuting the claim that every separator other than exactly one
space is rejected. -/
theorem claim_C4_counterexample :
    validateConventionalCommitHeader (chars "feat:\tadd caching") = ⟨true, none⟩ := by
  decide

/-- C4 (amended): the header regex requires exactly one JavaScript whitespace
class character (space, tab, and the other `\s` members) after the colon: a
header with no separator is rejected, but any single `\s` character is
accepted, not only a space. -/
theorem claim_C4_theorem :
    (∀ s m, matchHeaderRegex s = some m →
      ∃ pre sep, isJsSpace sep = true ∧ s = pre ++ ':' :: sep :: m.description) ∧
    validateConventionalCommitHeader (chars "feat:no-space") = ⟨false, some formatErrorText⟩ ∧
    (validateConventionalCommitHeader (chars "fix:\tz")).isValid = true := by
  refine ⟨?_, by decide, by decide⟩
  intro s m h
  obtain ⟨_, sep, hsep, hs⟩ := matchHeaderRegex_some h
  refine ⟨m.type ++ scopeText m.scope ++ (if m.breaking then ['!'] else []), sep, hsep, ?_⟩
  rw [hs]

theorem claim_C4_witness :
    ∃ pre sep, isJsSpace sep = true ∧
      chars "docs: update readme" = pre ++ ':' :: sep :: chars "update readme" := by
  have h := claim_C4_theorem.1 (chars "docs: update readme")
    ⟨chars "docs", none, false, chars "update readme"⟩ (by decide)
  simpa using h

/-- C5: initialize-project is atomic over the context slot: every failing
check (stat error, not a directory, not a git repository) returns an error
envelope and leaves the state exactly as it was, and when every check passes
the slot is replaced in one step with the resolved path and validated set,
overwriting any previous slot without an already-initialized error. -/
theorem claim_C5 :
    (∀ env st, ¬(env.statOutcome = .okDir ∧ env.isGitRepo = true) →
      (initializeProjectTool env st).1.isError = true ∧
      (initializeProjectTool env st).2 = st) ∧
    (∀ env st, env.statOutcome = .okDir → env.isGitRepo = true →
      (initializeProjectTool env st).1.isError = false ∧
      (initializeProjectTool env st).2 = ⟨some env.resolvedPath, true⟩) := by
  constructor
  · intro env st h
    cases hso : env.statOutcome with
    | okDir =>
      cases hg : env.isGitRepo with
      | false => simp [initializeProjectTool, hso, hg]
      | true => exact absurd ⟨hso, hg⟩ h
    | okNotDir => simp [initializeProjectTool, hso]
    | enoent => simp [initializeProjectTool, hso]
    | enotdir => simp [initializeProjectTool, hso]
    | otherErr msg => simp [initializeProjectTool, hso]
  · intro env st hso hg
    simp [initializeProjectTool, hso, hg]

theorem claim_C5_witness :
    (initializeProjectTool ⟨chars "/tmp/missing", .enoent, false⟩ initialState).2 =
      initialState ∧
    (initializeProjectTool ⟨chars "/repo", .okDir, true⟩ ⟨some (chars "/old"), true⟩).2 =
      ⟨some (chars "/repo"), true⟩ :=
  ⟨(claim_C5.1 ⟨chars "/tmp/missing", .enoent, false⟩ initialState (by simp)).2,
   (claim_C5.2 ⟨chars "/repo", .okDir, true⟩ ⟨some (chars "/old"), true⟩ rfl rfl).2⟩

/-- C6: with all three collaborator reads succeeding, the aggregate is the
Empty sentinel exactly when the staged and unstaged diffs are blank and the
untracked listing has no non-blank line; when only untracked files are
present the aggregate is exactly the UNTRACKED FILES block. -/
theorem claim_C6 :
    (∀ s u t, getGitDiffOk s u t = chars "No changes detected" ↔
      (jsTrim s = [] ∧ jsTrim u = [] ∧ nonBlankLines t = [])) ∧
    (∀ s u t, jsTrim s = [] → jsTrim u = [] → nonBlankLines t ≠ [] →
      getGitDiffOk s u t =
        jsTrim (chars "=== UNTRACKED FILES ===\n" ++ joinNl (nonBlankLines t) ++ chars "\n")) := by
  constructor
  · intro s u t
    constructor
    · intro h
      by_contra hne
      have hch : hasChangesB s u t = true := by
        cases hs : (jsTrim s).isEmpty with
        | false => simp [hasChangesB, hs]
        | true =>
          cases hu : (jsTrim u).isEmpty with
          | false => simp [hasChangesB, hu]
          | true =>
            cases ht : (nonBlankLines t).isEmpty with
            | false => simp [hasChangesB, ht]
            | true =>
              exact absurd ⟨by simpa using hs, by simpa using hu, by simpa using ht⟩ hne
      exact absurd h (marker_ne_noChanges (getGitDiffOk_marker s u t hch))
    · rintro ⟨h1, h2, h3⟩
      simp [getGitDiffOk, hasChangesB, h1, h2, h3]
  · intro s u t h1 h2 h3
    have hch : hasChangesB s u t = true := by
      simp [hasChangesB, h3]
    rw [getGitDiffOk, if_pos hch, stagedBlock, unstagedBlock, untrackedBlock]
    simp [h1, h2, h3]

theorem claim_C6_witness :
    getGitDiffOk (chars "") (chars "  ") (chars "new.txt\n") =
      jsTrim (chars "=== UNTRACKED FILES ===\n" ++
        joinNl (nonBlankLines (chars "new.txt\n")) ++ chars "\n") :=
  claim_C6.2 (chars "") (chars "  ") (chars "new.txt\n") (by decide) (by decide) (by decide)

/-- C7: if any of the three collaborator reads fails, the aggregator returns
the Failure text carrying the message of the first failure, issues none of the
later calls, and returns no partially assembled aggregate. -/
theorem claim_C7 : ∀ (path : List Char) (env : DiffEnv),
    (∀ m, env.staged = .err m →
      getGitDiffRun path env = (diffFailText m, [.diffStaged path])) ∧
    (∀ s m, env.staged = .ok s → env.unstaged = .err m →
      getGitDiffRun path env = (diffFailText m, [.diffStaged path, .diffUnstaged path])) ∧
    (∀ s u m, env.staged = .ok s → env.unstaged = .ok u → env.untracked = .err m →
      getGitDiffRun path env =
        (diffFailText m, [.diffStaged path, .diffUnstaged path, .lsOthers path])) := by
  intro path env
  refine ⟨?_, ?_, ?_⟩
  · intro m hm
    simp [getGitDiffRun, hm]
  · intro s m hs hm
    simp [getGitDiffRun, hs, hm]
  · intro s u m hs hu hm
    simp [getGitDiffRun, hs, hu, hm]

theorem claim_C7_witness :
    getGitDiffRun (chars "/repo") ⟨.err (chars "boom"), .ok [], .ok []⟩ =
      (diffFailText (chars "boom"), [.diffStaged (chars "/repo")]) :=
  (claim_C7 (chars "/repo") ⟨.err (chars "boom"), .ok [], .ok []⟩).1 (chars "boom") rfl

/-- C8 counterexample: the commit collaborator call is a single concatenated
shell string, not a pair of atomic arguments: for the message whose subject
ends in a backslash, the string the handler builds does not decode (POSIX
double-quote splitting) to any argument vector at all, let alone to the
intended subject/body pair. -/
theorem claim_C8_counterexample :
    buildCommitCommand (chars "feat: add \\\nbody") =
      chars "git commit -m \"feat: add \\\" -m \"body\"" ∧
    shellSplitCmd (buildCommitCommand (chars "feat: add \\\nbody")) = none ∧
    commitArgvSpec (chars "feat: add \\\nbody") =
      [chars "git", chars "commit", chars "-m", chars "feat: add \\",
       chars "-m", chars "body"] ∧
    shellSplitCmd (buildCommitCommand (chars "feat: add \\\nbody")) ≠
      some (commitArgvSpec (chars "feat: add \\\nbody")) := by
  exact ⟨by decide, by decide, by decide, by decide⟩

/-- C8 (amended): the subject is the first line of the whitespace-trimmed
message and the body is the remaining lines rejoined with their internal
newlines; the handler passes them as two separate -m flags, the body flag
only when the body is non-empty — but embedded by concatenation into one
shell command string with only double quotes escaped, not as independent
atomic arguments. -/
theorem claim_C8_theorem : ∀ message : List Char,
    (commitSubject message ++
      (if (splitNl (jsTrim message)).tail.isEmpty then [] else '\n' :: commitBody message)
      = jsTrim message) ∧
    buildCommitCommand message =
      chars "git commit -m \"" ++ escapeQuotes (commitSubject message) ++ chars "\"" ++
        (if (commitBody message).isEmpty then []
         else chars " -m \"" ++ escapeQuotes (commitBody message) ++ chars "\"") := by
  intro message
  refine ⟨?_, rfl⟩
  have hj := joinNl_splitNl (jsTrim message)
  cases hsp : splitNl (jsTrim message) with
  | nil => exact absurd hsp (splitNl_ne_nil _)
  | cons a as =>
    rw [hsp] at hj
    rw [commitSubject, commitBody, hsp]
    cases as with
    | nil => simpa [joinNl] using hj
    | cons b bs =>
      rw [joinNl_cons_cons] at hj
      simpa using hj

/-- C9: with validate=true, header validation runs before any VCS operation:
an invalid message makes create-commit return the validation error envelope
with zero collaborator calls, even when addAll is true. -/
theorem claim_C9 :
    ∀ (st : ServerState) (message : List Char) (addAll : Bool) (env : CommitEnv),
    pathTruthy st.projectPath = true → st.isValidGitRepo = true →
    (validateConventionalCommitHeader message).isValid = false →
    createCommitTool st message addAll true env =
      (⟨validationFailText message
          ((validateConventionalCommitHeader message).error.getD []), true⟩, []) := by
  intro st message addAll env hp hr hv
  simp [createCommitTool, hp, hr, hv]

theorem claim_C9_witness :
    createCommitTool ⟨some (chars "/repo"), true⟩ (chars "bogus") true true
        ⟨none, .ok [] []⟩ =
      (⟨validationFailText (chars "bogus")
          ((validateConventionalCommitHeader (chars "bogus")).error.getD []), true⟩, []) :=
  claim_C9 ⟨some (chars "/repo"), true⟩ (chars "bogus") true ⟨none, .ok [] []⟩
    (by decide) rfl (by decide)

/-- C10: for every collaborator outcome, the aggregator output falls in
exactly one of the three string classes the callers test for: the Empty
sentinel, a Failure text with the error prefix, or a Changes text beginning
with the block marker — so the string classification is unambiguous. -/
theorem claim_C10 : ∀ (path : List Char) (env : DiffEnv),
    ((getGitDiffRun path env).1 = chars "No changes detected" ∧
      startsWithL (chars "Error retrieving git diff:") (getGitDiffRun path env).1 = false) ∨
    (startsWithL (chars "Error retrieving git diff:") (getGitDiffRun path env).1 = true ∧
      (getGitDiffRun path env).1 ≠ chars "No changes detected") ∨
    (startsWithL (chars "=== ") (getGitDiffRun path env).1 = true ∧
      (getGitDiffRun path env).1 ≠ chars "No changes detected" ∧
      startsWithL (chars "Error retrieving git diff:") (getGitDiffRun path env).1 = false) := by
  intro path env
  obtain ⟨st, un, tr⟩ := env
  cases st with
  | err m =>
    right; left
    simp only [getGitDiffRun]
    exact ⟨errText_startsWith m, errText_ne_noChanges m⟩
  | errNonError =>
    right; left
    simp only [getGitDiffRun]
    exact ⟨by decide, by decide⟩
  | ok s =>
    cases un with
    | err m =>
      right; left
      simp only [getGitDiffRun]
      exact ⟨errText_startsWith m, errText_ne_noChanges m⟩
    | errNonError =>
      right; left
      simp only [getGitDiffRun]
      exact ⟨by decide, by decide⟩
    | ok u =>
      cases tr with
      | err m =>
        right; left
        simp only [getGitDiffRun]
        exact ⟨errText_startsWith m, errText_ne_noChanges m⟩
      | errNonError =>
        right; left
        simp only [getGitDiffRun]
        exact ⟨by decide, by decide⟩
      | ok t =>
        simp only [getGitDiffRun]
        cases hch : hasChangesB s u t with
        | false =>
          left
          rw [getGitDiffOk, if_neg (by simp [hch])]
          exact ⟨rfl, by decide⟩
        | true =>
          right; right
          have hm := getGitDiffOk_marker s u t hch
          exact ⟨hm, marker_ne_noChanges hm, marker_not_err hm⟩

end CommitHelper
